import Mathlib

set_option autoImplicit false

/-!
Verification of the enumeration framework of `discord/enums.py`
(`EnumMeta`, `Enum.try_value`, `try_enum` and the concrete symbol sets).

The embedding models Python class construction by `EnumMeta.__new__` as a
fold over the ordered class-body attributes, producing the three frozen
structures the metaclass stores on the class (`_enum_value_map_`,
`_enum_member_map_`, `_enum_member_names_`).  Python dicts built by this
code are insertion-ordered with unique keys, so they are modelled as
association lists; dict access on an unhashable key raises `TypeError`,
on a missing hashable key `KeyError`.
-/

/-- A Python object appearing as an enum raw value or a resolver input:
an int, a string, or an opaque token standing for any unhashable object
(lists, dicts, ...). -/
inductive PyObj where
  | int (n : Int)
  | str (s : String)
  | unhashable (id : Nat)
deriving DecidableEq, Repr

/-- Whether the object may be used as a dict key. -/
def PyObj.hashable : PyObj → Bool
  | .unhashable _ => false
  | _ => true

/-- The per-class value record `_EnumValue_<name>` (enums.py line 66):
a namedtuple with fields `name` and `value`. -/
structure EnumValue where
  name : String
  value : PyObj
deriving DecidableEq, Repr

/-- The Python exceptions arising on the embedded code paths. -/
inductive PyErr where
  | keyError
  | typeError (msg : String)
  | valueError
deriving DecidableEq, Repr

/-- First-match association-list lookup; the dicts the metaclass builds have
unique keys, so this is exact dict-lookup behaviour. -/
def alookup {α β : Type} [DecidableEq α] : List (α × β) → α → Option β
  | [], _ => none
  | (k, v) :: rest, key => if k = key then some v else alookup rest key

/-- Python `d[key]` on a value map: an unhashable key raises `TypeError`,
a missing hashable key raises `KeyError`. -/
def dictGet (m : List (PyObj × EnumValue)) (k : PyObj) : Except PyErr EnumValue :=
  if k.hashable then
    match alookup m k with
    | some v => Except.ok v
    | none => Except.error PyErr.keyError
  else Except.error (PyErr.typeError "unhashable type")

/-- Test for `key[0]` being an underscore (enums.py 85) on a (nonempty) attribute name. -/
def underscoreFirst (key : String) : Bool :=
  key.data.head? == some (Char.ofNat 0x5f)

deriving instance DecidableEq for Except

/-- A class-body attribute as `EnumMeta.__new__` classifies it
(enums.py 83-95): a plain value (member candidate), a descriptor
(functions and properties, moved onto the value class), or a classmethod
(passed through). -/
inductive Attr where
  | val (v : PyObj)
  | descr
  | classm
deriving DecidableEq, Repr

/-- Model of `_is_descriptor` (enums.py 72-73): functions, properties and classmethod
objects all expose `__get__`; the plain ints and strings used as member
values do not. -/
def Attr.isDescriptor : Attr → Bool
  | .val _ => false
  | _ => true

/-- The three frozen structures `EnumMeta.__new__` stores on the finished
class (enums.py 107-109). -/
structure EnumDef where
  value_map : List (PyObj × EnumValue)
  member_map : List (String × EnumValue)
  member_names : List String
deriving DecidableEq, Repr

/-- The member branch of the attribute loop (enums.py 97-105): reuse the
symbol from the value map when the value was seen before (alias: registered
in the member map only), otherwise create a new symbol and register it in
all three structures. -/
def valStep (st : EnumDef) (key : String) (v : PyObj) : EnumDef :=
  match alookup st.value_map v with
  | some s => { st with member_map := st.member_map ++ [(key, s)] }
  | none =>
    { value_map := st.value_map ++ [(v, ⟨key, v⟩)]
      member_map := st.member_map ++ [(key, ⟨key, v⟩)]
      member_names := st.member_names ++ [key] }

/-- One iteration of the attribute loop of `EnumMeta.__new__`
(enums.py 83-105): skip non-descriptor names starting with an underscore,
pass classmethods through, move descriptors onto the value class, and run
the member branch on plain values. -/
def enumStep (st : EnumDef) (key : String) (a : Attr) : EnumDef :=
  if underscoreFirst key && !a.isDescriptor then st
  else
    match a with
    | .classm => st
    | .descr => st
    | .val v => valStep st key v

/-- Model of `EnumMeta.__new__` (enums.py 77-112): fold the attribute loop over the
ordered class body, starting from empty maps. -/
def EnumMeta_new (attrs : List (String × Attr)) : EnumDef :=
  attrs.foldl (fun st kv => enumStep st kv.1 kv.2) ⟨[], [], []⟩

/-- Model of `EnumMeta.__iter__` (enums.py 114-115), taken as a finite list: the
generator looks every member name up in the member map; a missing name
would raise `KeyError`, hence the `Option`. -/
def EnumMeta_iter (st : EnumDef) : Option (List EnumValue) :=
  st.member_names.mapM (alookup st.member_map)

/-- Model of `EnumMeta.__reversed__` (enums.py 117-118). -/
def EnumMeta_reversed (st : EnumDef) : Option (List EnumValue) :=
  st.member_names.reverse.mapM (alookup st.member_map)

/-- Model of `EnumMeta.__len__` (enums.py 120-121). -/
def EnumMeta_len (st : EnumDef) : Nat := st.member_names.length

/-- Model of `EnumMeta.__call__`, strict resolve (enums.py 130-134): a value-map hit
returns the canonical symbol; `KeyError` and `TypeError` are both caught
and turned into `ValueError`. -/
def EnumMeta_call (st : EnumDef) (value : PyObj) : Except PyErr EnumValue :=
  match dictGet st.value_map value with
  | .ok s => .ok s
  | .error _ => .error .valueError

/-- Model of `EnumMeta.__getitem__`, lookup-by-name (enums.py 136-137): plain dict
access; string keys are always hashable, missing names raise `KeyError`. -/
def EnumMeta_getitem (st : EnumDef) (key : String) : Except PyErr EnumValue :=
  match alookup st.member_map key with
  | some s => .ok s
  | none => .error .keyError

/-- Model of `EnumMeta.__setattr__` (enums.py 139-140): raises unconditionally before
touching anything; the result pairs the raised error with the class state
after the call. -/
def EnumMeta_setattr (st : EnumDef) (name : String) (value : Attr) :
    Except PyErr Unit × EnumDef :=
  (.error (.typeError "Enums are immutable."), st)

/-- Model of `EnumMeta.__delattr__` (enums.py 142-143). -/
def EnumMeta_delattr (st : EnumDef) (attr : String) : Except PyErr Unit × EnumDef :=
  (.error (.typeError "Enums are immutable"), st)

/-- A candidate object of `isinstance`: either an enum value record stamped
with its owning class through `value_cls._actual_enum_cls_` (enums.py 111),
or any object without that attribute.  Classes are identified by a token
standing for their identity. -/
inductive Candidate where
  | enumValue (actual_enum_cls : Nat) (s : EnumValue)
  | plain (v : PyObj)
deriving DecidableEq, Repr

/-- Model of `EnumMeta.__instancecheck__` (enums.py 145-151): compare the back-reference of the candidate with the queried class; the `AttributeError` on an object
without one is caught and yields `False`. -/
def EnumMeta_instancecheck (cls : Nat) : Candidate → Bool
  | .enumValue owner _ => owner == cls
  | .plain _ => false

/-- The outcome of a try-resolve: a member symbol, or the input passed
through unchanged. -/
inductive TryResult where
  | sym (s : EnumValue)
  | raw (v : PyObj)
deriving DecidableEq, Repr

/-- Model of `Enum.try_value` (enums.py 155-160): a value-map hit returns the symbol;
`KeyError` and `TypeError` are caught and the input is returned unchanged. -/
def Enum_try_value (st : EnumDef) (value : PyObj) : TryResult :=
  match dictGet st.value_map value with
  | .ok s => .sym s
  | .error _ => .raw value

/-- Model of `try_enum` (enums.py 598-608): like `Enum.try_value`, but `getattr` may
also raise `AttributeError` when `cls` has no `_enum_value_map_` (modelled
by `none`), returning the input unchanged in that case too. -/
def try_enum (cls : Option EnumDef) (val : PyObj) : TryResult :=
  match cls with
  | none => .raw val
  | some st =>
    match dictGet st.value_map val with
    | .ok s => .sym s
    | .error _ => .raw val

/-! ### Concrete symbol sets (enums.py 163-250, 433-538)

Each class body is listed in declaration order exactly as the metaclass
receives it: the dunder bookkeeping entries Python inserts
(`__module__`, `__qualname__`, and `__doc__` when the class has a
docstring), the member assignments, then the methods (descriptors) and
classmethods. -/

/-- Class body of `ChannelType` (enums.py 163-178). -/
def channelTypeAttrs : List (String × Attr) :=
  [("__module__", .val (.str "discord.enums")),
   ("__qualname__", .val (.str "ChannelType")),
   ("text", .val (.int 0)),
   ("private", .val (.int 1)),
   ("voice", .val (.int 2)),
   ("group", .val (.int 3)),
   ("category", .val (.int 4)),
   ("news", .val (.int 5)),
   ("store", .val (.int 6)),
   ("news_thread", .val (.int 10)),
   ("public_thread", .val (.int 11)),
   ("private_thread", .val (.int 12)),
   ("stage_voice", .val (.int 13)),
   ("__str__", .descr)]

/-- The `ChannelType` symbol set. -/
def ChannelType : EnumDef := EnumMeta_new channelTypeAttrs

/-- Class body of `ButtonStyle` (enums.py 207-240). -/
def buttonStyleAttrs : List (String × Attr) :=
  [("__module__", .val (.str "discord.enums")),
   ("__qualname__", .val (.str "ButtonStyle")),
   ("__doc__", .val (.str "Represents the Style for a discord.Button")),
   ("blurple", .val (.int 1)),
   ("Primary", .val (.int 1)),
   ("grey", .val (.int 2)),
   ("gray", .val (.int 2)),
   ("Secondary", .val (.int 2)),
   ("green", .val (.int 3)),
   ("Success", .val (.int 3)),
   ("red", .val (.int 4)),
   ("Danger", .val (.int 4)),
   ("url", .val (.int 5)),
   ("link", .val (.int 5)),
   ("grey_url", .val (.int 5)),
   ("Link_Button", .val (.int 5)),
   ("from_value", .classm),
   ("__str__", .descr),
   ("__int__", .descr)]

/-- The `ButtonStyle` symbol set. -/
def ButtonStyle : EnumDef := EnumMeta_new buttonStyleAttrs

/-- Class body of `ButtonColor` (enums.py 243-250): the subclass body holds
only the dunder bookkeeping entries and the docstring — no member
assignments — yet `EnumMeta.__new__` runs again on it and stores fresh
(empty) maps on the subclass, shadowing the inherited ones. -/
def buttonColorAttrs : List (String × Attr) :=
  [("__module__", .val (.str "discord.enums")),
   ("__qualname__", .val (.str "ButtonColor")),
   ("__doc__", .val (.str "This is just an Aliase to ButtonStyle."))]

/-- The `ButtonColor` symbol set. -/
def ButtonColor : EnumDef := EnumMeta_new buttonColorAttrs

/-- Class identity token of `ButtonStyle`, as stamped through
`value_cls._actual_enum_cls_` (enums.py 111); each class creation stamps
its own fresh value class, so distinct classes get distinct tokens. -/
def ButtonStyle_cls : Nat := 0

/-- Class identity token of `ButtonColor`. -/
def ButtonColor_cls : Nat := 1

/-- Class body of `ComponentType` (enums.py 192-204). -/
def componentTypeAttrs : List (String × Attr) :=
  [("__module__", .val (.str "discord.enums")),
   ("__qualname__", .val (.str "ComponentType")),
   ("ActionRow", .val (.int 1)),
   ("Button", .val (.int 2)),
   ("SelectMenu", .val (.int 3)),
   ("__str__", .descr),
   ("__int__", .descr),
   ("__eq__", .descr)]

/-- The `ComponentType` symbol set. -/
def ComponentType : EnumDef := EnumMeta_new componentTypeAttrs

/-- Class body of `AuditLogActionCategory` (enums.py 433-436). -/
def auditLogActionCategoryAttrs : List (String × Attr) :=
  [("__module__", .val (.str "discord.enums")),
   ("__qualname__", .val (.str "AuditLogActionCategory")),
   ("create", .val (.int 1)),
   ("delete", .val (.int 2)),
   ("update", .val (.int 3))]

/-- The `AuditLogActionCategory` symbol set. -/
def AuditLogActionCategory : EnumDef := EnumMeta_new auditLogActionCategoryAttrs

/-- The member records of `AuditLogActionCategory`, as attribute access
`AuditLogActionCategory.create` etc. yields them. -/
def AuditLogActionCategory.create : EnumValue := ⟨"create", .int 1⟩

/-- Member record `AuditLogActionCategory.delete`. -/
def AuditLogActionCategory.delete : EnumValue := ⟨"delete", .int 2⟩

/-- Member record `AuditLogActionCategory.update`. -/
def AuditLogActionCategory.update : EnumValue := ⟨"update", .int 3⟩

/-- The member assignments of `AuditLogAction` (enums.py 439-473) in
declaration order. -/
def auditLogActionMembers : List (String × Int) :=
  [("guild_update", 1),
   ("channel_create", 10),
   ("channel_update", 11),
   ("channel_delete", 12),
   ("overwrite_create", 13),
   ("overwrite_update", 14),
   ("overwrite_delete", 15),
   ("kick", 20),
   ("member_prune", 21),
   ("ban", 22),
   ("unban", 23),
   ("member_update", 24),
   ("member_role_update", 25),
   ("member_move", 26),
   ("member_disconnect", 27),
   ("bot_add", 28),
   ("role_create", 30),
   ("role_update", 31),
   ("role_delete", 32),
   ("invite_create", 40),
   ("invite_update", 41),
   ("invite_delete", 42),
   ("webhook_create", 50),
   ("webhook_update", 51),
   ("webhook_delete", 52),
   ("emoji_create", 60),
   ("emoji_update", 61),
   ("emoji_delete", 62),
   ("message_delete", 72),
   ("message_bulk_delete", 73),
   ("message_pin", 74),
   ("message_unpin", 75),
   ("integration_create", 80),
   ("integration_update", 81),
   ("integration_delete", 82)]

/-- Class body of `AuditLogAction` (enums.py 438-538): the members followed
by the two `property` descriptors. -/
def auditLogActionAttrs : List (String × Attr) :=
  [("__module__", .val (.str "discord.enums")),
   ("__qualname__", .val (.str "AuditLogAction"))]
  ++ auditLogActionMembers.map (fun kv => (kv.1, Attr.val (.int kv.2)))
  ++ [("category", .descr), ("target_type", .descr)]

/-- The `AuditLogAction` symbol set. -/
def AuditLogAction : EnumDef := EnumMeta_new auditLogActionAttrs

/-- The lookup table of `AuditLogAction.category` (enums.py 477-513),
keyed by the member records (`AuditLogAction.guild_update`, ...); the
values are `AuditLogActionCategory` members or `None`. -/
def categoryTable : List (EnumValue × Option EnumValue) :=
  [(⟨"guild_update", .int 1⟩,        some AuditLogActionCategory.update),
   (⟨"channel_create", .int 10⟩,     some AuditLogActionCategory.create),
   (⟨"channel_update", .int 11⟩,     some AuditLogActionCategory.update),
   (⟨"channel_delete", .int 12⟩,     some AuditLogActionCategory.delete),
   (⟨"overwrite_create", .int 13⟩,   some AuditLogActionCategory.create),
   (⟨"overwrite_update", .int 14⟩,   some AuditLogActionCategory.update),
   (⟨"overwrite_delete", .int 15⟩,   some AuditLogActionCategory.delete),
   (⟨"kick", .int 20⟩,               none),
   (⟨"member_prune", .int 21⟩,       none),
   (⟨"ban", .int 22⟩,                none),
   (⟨"unban", .int 23⟩,              none),
   (⟨"member_update", .int 24⟩,      some AuditLogActionCategory.update),
   (⟨"member_role_update", .int 25⟩, some AuditLogActionCategory.update),
   (⟨"member_move", .int 26⟩,        none),
   (⟨"member_disconnect", .int 27⟩,  none),
   (⟨"bot_add", .int 28⟩,            none),
   (⟨"role_create", .int 30⟩,        some AuditLogActionCategory.create),
   (⟨"role_update", .int 31⟩,        some AuditLogActionCategory.update),
   (⟨"role_delete", .int 32⟩,        some AuditLogActionCategory.delete),
   (⟨"invite_create", .int 40⟩,      some AuditLogActionCategory.create),
   (⟨"invite_update", .int 41⟩,      some AuditLogActionCategory.update),
   (⟨"invite_delete", .int 42⟩,      some AuditLogActionCategory.delete),
   (⟨"webhook_create", .int 50⟩,     some AuditLogActionCategory.create),
   (⟨"webhook_update", .int 51⟩,     some AuditLogActionCategory.update),
   (⟨"webhook_delete", .int 52⟩,     some AuditLogActionCategory.delete),
   (⟨"emoji_create", .int 60⟩,       some AuditLogActionCategory.create),
   (⟨"emoji_update", .int 61⟩,       some AuditLogActionCategory.update),
   (⟨"emoji_delete", .int 62⟩,       some AuditLogActionCategory.delete),
   (⟨"message_delete", .int 72⟩,     some AuditLogActionCategory.delete),
   (⟨"message_bulk_delete", .int 73⟩, some AuditLogActionCategory.delete),
   (⟨"message_pin", .int 74⟩,        none),
   (⟨"message_unpin", .int 75⟩,      none),
   (⟨"integration_create", .int 80⟩, some AuditLogActionCategory.create),
   (⟨"integration_update", .int 81⟩, some AuditLogActionCategory.update),
   (⟨"integration_delete", .int 82⟩, some AuditLogActionCategory.delete)]

/-- Model of `AuditLogAction.category` (enums.py 475-514): dict lookup keyed by the
member record itself; the stored entry may be `None` (the inner `Option`),
and a non-member would raise `KeyError` (the outer `Option`). -/
def AuditLogAction_category (s : EnumValue) : Option (Option EnumValue) :=
  alookup categoryTable s

/-- Model of `AuditLogAction.target_type` (enums.py 516-538) on the raw
integer value of the member: the `if/elif` chain buckets by tens, and falling off the
end returns `None`. -/
def AuditLogAction_target_type (v : Int) : Option String :=
  if v == -1 then some "all"
  else if v < 10 then some "guild"
  else if v < 20 then some "channel"
  else if v < 30 then some "user"
  else if v < 40 then some "role"
  else if v < 50 then some "invite"
  else if v < 60 then some "webhook"
  else if v < 70 then some "emoji"
  else if v < 80 then some "message"
  else if v < 90 then some "integration"
  else none

/-! ### The overridden equality of `ComponentType` (enums.py 192-204)

`ComponentType.__eq__` is `int(self) == other or str(self) == other`,
with `int(self) = self.value` and `str(self) = self.name`.  The inner
`==` follows Python rich-comparison dispatch: `int.__eq__` and
`str.__eq__` answer for operands of their own type and return
`NotImplemented` otherwise, upon which Python tries the REFLECTED
operand; when the right operand is itself a `ComponentType` member
record, its own `__eq__` therefore runs with a primitive left-hand
argument.  Cross-type primitive comparisons fall back to identity,
which is false. -/

/-- A primitive operand (int or str) of the inner comparisons. -/
inductive CTPrim where
  | pint (n : Int)
  | pstr (s : String)
deriving DecidableEq, Repr

/-- An operand of `==` against a `ComponentType` member: a primitive, or
another member record (carrying its `name` and integer `value`). -/
inductive CTOperand where
  | prim (p : CTPrim)
  | mem (name : String) (value : Int)
deriving DecidableEq, Repr

/-- Model of `ComponentType.__eq__` with a primitive right operand:
`int(self) == p or str(self) == p`, primitive cross-type `==` being
false. -/
def ComponentType_eq_prim (name : String) (value : Int) (p : CTPrim) : Bool :=
  match p with
  | .pint m => (value == m) || false
  | .pstr u => false || (name == u)

/-- Python `v == other` for an int `v` on the left: `int.__eq__` decides
int operands, and against a member record the reflected
`ComponentType.__eq__` runs with `int(self)` as the primitive operand. -/
def intEqPy (v : Int) (other : CTOperand) : Bool :=
  match other with
  | .prim (.pint m) => v == m
  | .prim (.pstr _) => false
  | .mem nm mv => ComponentType_eq_prim nm mv (.pint v)

/-- Python `u == other` for a str `u` on the left, symmetrically. -/
def strEqPy (u : String) (other : CTOperand) : Bool :=
  match other with
  | .prim (.pint _) => false
  | .prim (.pstr w) => u == w
  | .mem nm mv => ComponentType_eq_prim nm mv (.pstr u)

/-- Model of `ComponentType.__eq__` (enums.py 203-204) on a member with the given
`name` and integer `value`: `int(self) == other or str(self) == other`. -/
def ComponentType_eq (name : String) (value : Int) (other : CTOperand) : Bool :=
  intEqPy value other || strEqPy name other

/-! ### Specification-side descriptions of the construction

These definitions follow the words of the specification (member
declarations, first-declaration order, alias collapsing, canonical
first-declared names) and are proved to describe what `EnumMeta_new`
actually builds. -/

/-- The (name, raw value) pairs the attribute loop treats as member
declarations: plain values whose name does not start with an underscore. -/
def memberDecls (attrs : List (String × Attr)) : List (String × PyObj) :=
  attrs.filterMap (fun ka =>
    match ka.2 with
    | .val v => if underscoreFirst ka.1 then none else some (ka.1, v)
    | .descr => none
    | .classm => none)

/-- Folding only the member branch of the loop over pure declarations. -/
def buildFrom (st : EnumDef) (decls : List (String × PyObj)) : EnumDef :=
  decls.foldl (fun st kv => valStep st kv.1 kv.2) st

/-- Keys of an association list. -/
def keysOf {α β : Type} (l : List (α × β)) : List α := l.map Prod.fst

/-- The distinct symbols a declaration list produces, given the raw values
already seen: one symbol per first occurrence of a value, in declaration
order, named after its first-declared name. -/
def specMembers (seen : List PyObj) : List (String × PyObj) → List EnumValue
  | [] => []
  | (k, v) :: rest =>
    if v ∈ seen then specMembers seen rest
    else ⟨k, v⟩ :: specMembers (v :: seen) rest

/-- The member-map entries a declaration list appends to a state whose
value map is `vmap`: every declared name, in order, bound to the canonical
symbol of its raw value. -/
def specEntries : List (PyObj × EnumValue) → List (String × PyObj) → List (String × EnumValue)
  | _, [] => []
  | vmap, (k, v) :: rest =>
    match alookup vmap v with
    | some s => (k, s) :: specEntries vmap rest
    | none => (k, ⟨k, v⟩) :: specEntries (vmap ++ [(v, ⟨k, v⟩)]) rest

/-- The first-declared name for a raw value. -/
def firstKey (decls : List (String × PyObj)) (v : PyObj) : Option String :=
  (decls.find? (fun kv => kv.2 == v)).map Prod.fst

theorem alookup_append {α β : Type} [DecidableEq α] (l1 l2 : List (α × β)) (k : α) :
    alookup (l1 ++ l2) k =
      (match alookup l1 k with
       | some b => some b
       | none => alookup l2 k) := by
  induction l1 with
  | nil => simp [alookup]
  | cons hd tl ih =>
    obtain ⟨a, b⟩ := hd
    by_cases h : a = k <;> simp [alookup, h, ih]

theorem alookup_eq_none {α β : Type} [DecidableEq α] (l : List (α × β)) (k : α) :
    alookup l k = none ↔ k ∉ keysOf l := by
  induction l with
  | nil => simp [alookup, keysOf]
  | cons hd tl ih =>
    obtain ⟨a, b⟩ := hd
    by_cases h : a = k <;> simp [alookup, keysOf, h, ih] <;> tauto

theorem alookup_isSome {α β : Type} [DecidableEq α] (l : List (α × β)) (k : α) :
    (alookup l k).isSome ↔ k ∈ keysOf l := by
  constructor
  · intro h
    by_contra hk
    rw [(alookup_eq_none l k).mpr hk] at h
    simp at h
  · intro h
    cases hl : alookup l k with
    | some b => rfl
    | none => exact absurd ((alookup_eq_none l k).mp hl) (fun c => c h)

theorem specMembers_congr (decls : List (String × PyObj)) :
    ∀ seen1 seen2 : List PyObj, (∀ x, x ∈ seen1 ↔ x ∈ seen2) →
      specMembers seen1 decls = specMembers seen2 decls := by
  induction decls with
  | nil => intro _ _ _; rfl
  | cons hd rest ih =>
    intro seen1 seen2 h
    obtain ⟨k, v⟩ := hd
    by_cases hv : v ∈ seen1
    · simp [specMembers, hv, (h v).mp hv, ih seen1 seen2 h]
    · have hv2 : v ∉ seen2 := fun c => hv ((h v).mpr c)
      simp only [specMembers, if_neg hv, if_neg hv2]
      refine congrArg _ (ih _ _ ?_)
      intro x
      simp only [List.mem_cons]
      exact or_congr Iff.rfl (h x)

theorem buildFrom_char (decls : List (String × PyObj)) :
    ∀ st : EnumDef,
      (buildFrom st decls).value_map
          = st.value_map ++ (specMembers (keysOf st.value_map) decls).map (fun s => (s.value, s))
      ∧ (buildFrom st decls).member_map = st.member_map ++ specEntries st.value_map decls
      ∧ (buildFrom st decls).member_names
          = st.member_names ++ (specMembers (keysOf st.value_map) decls).map EnumValue.name := by
  induction decls with
  | nil => intro st; simp [buildFrom, specMembers, specEntries]
  | cons hd rest ih =>
    intro st
    obtain ⟨k, v⟩ := hd
    have hstep : buildFrom st ((k, v) :: rest) = buildFrom (valStep st k v) rest := rfl
    cases h : alookup st.value_map v with
    | some s =>
      have hv : v ∈ keysOf st.value_map := by
        have := (alookup_isSome st.value_map v)
        rw [h] at this
        exact this.mp rfl
      have hval : valStep st k v = { st with member_map := st.member_map ++ [(k, s)] } := by
        simp [valStep, h]
      obtain ⟨ih1, ih2, ih3⟩ := ih (valStep st k v)
      rw [hstep]
      refine ⟨?_, ?_, ?_⟩
      · rw [ih1, hval]
        simp [specMembers, hv]
      · rw [ih2, hval]
        simp [specEntries, h]
      · rw [ih3, hval]
        simp [specMembers, hv]
    | none =>
      have hv : v ∉ keysOf st.value_map := (alookup_eq_none st.value_map v).mp h
      have hval : valStep st k v =
          { value_map := st.value_map ++ [(v, ⟨k, v⟩)]
            member_map := st.member_map ++ [(k, ⟨k, v⟩)]
            member_names := st.member_names ++ [k] } := by
        simp [valStep, h]
      have hkeys : keysOf (st.value_map ++ [(v, ⟨k, v⟩)]) = keysOf st.value_map ++ [v] := by
        simp [keysOf]
      have hseen : specMembers (keysOf st.value_map ++ [v]) rest
          = specMembers (v :: keysOf st.value_map) rest := by
        refine specMembers_congr rest _ _ ?_
        intro x
        simp only [List.mem_append, List.mem_singleton, List.mem_cons]
        tauto
      obtain ⟨ih1, ih2, ih3⟩ := ih (valStep st k v)
      rw [hstep]
      refine ⟨?_, ?_, ?_⟩
      · rw [ih1, hval]
        simp only [hkeys, hseen, specMembers, if_neg hv]
        simp
      · rw [ih2, hval]
        simp [specEntries, h]
      · rw [ih3, hval]
        simp only [hkeys, hseen, specMembers, if_neg hv]
        simp

theorem foldl_enumStep_eq_buildFrom (attrs : List (String × Attr)) :
    ∀ st : EnumDef,
      attrs.foldl (fun st kv => enumStep st kv.1 kv.2) st = buildFrom st (memberDecls attrs) := by
  induction attrs with
  | nil => intro st; rfl
  | cons hd rest ih =>
    intro st
    obtain ⟨k, a⟩ := hd
    have step : List.foldl (fun st kv => enumStep st kv.1 kv.2) st ((k, a) :: rest)
        = List.foldl (fun st kv => enumStep st kv.1 kv.2) (enumStep st k a) rest := rfl
    rw [step, ih (enumStep st k a)]
    cases a with
    | val v =>
      by_cases h : underscoreFirst k = true
      · have h1 : enumStep st k (.val v) = st := by
          simp [enumStep, Attr.isDescriptor, h]
        have h2 : memberDecls ((k, .val v) :: rest) = memberDecls rest := by
          simp [memberDecls, List.filterMap_cons, h]
        rw [h1, h2]
      · simp only [Bool.not_eq_true] at h
        have h1 : enumStep st k (.val v) = valStep st k v := by
          simp [enumStep, Attr.isDescriptor, h]
        have h2 : memberDecls ((k, .val v) :: rest) = (k, v) :: memberDecls rest := by
          simp [memberDecls, List.filterMap_cons, h]
        rw [h1, h2]
        rfl
    | descr =>
      have h1 : enumStep st k .descr = st := by
        simp [enumStep, Attr.isDescriptor]
      have h2 : memberDecls ((k, .descr) :: rest) = memberDecls rest := by
        simp [memberDecls, List.filterMap_cons]
      rw [h1, h2]
    | classm =>
      have h1 : enumStep st k .classm = st := by
        simp [enumStep, Attr.isDescriptor]
      have h2 : memberDecls ((k, .classm) :: rest) = memberDecls rest := by
        simp [memberDecls, List.filterMap_cons]
      rw [h1, h2]

theorem EnumMeta_new_eq_buildFrom (attrs : List (String × Attr)) :
    EnumMeta_new attrs = buildFrom ⟨[], [], []⟩ (memberDecls attrs) :=
  foldl_enumStep_eq_buildFrom attrs ⟨[], [], []⟩

theorem EnumMeta_new_value_map (attrs : List (String × Attr)) :
    (EnumMeta_new attrs).value_map
      = (specMembers [] (memberDecls attrs)).map (fun s => (s.value, s)) := by
  rw [EnumMeta_new_eq_buildFrom]
  have h := (buildFrom_char (memberDecls attrs) ⟨[], [], []⟩).1
  simpa [keysOf] using h

theorem EnumMeta_new_member_map (attrs : List (String × Attr)) :
    (EnumMeta_new attrs).member_map = specEntries [] (memberDecls attrs) := by
  rw [EnumMeta_new_eq_buildFrom]
  have h := (buildFrom_char (memberDecls attrs) ⟨[], [], []⟩).2.1
  simpa using h

theorem EnumMeta_new_member_names (attrs : List (String × Attr)) :
    (EnumMeta_new attrs).member_names
      = (specMembers [] (memberDecls attrs)).map EnumValue.name := by
  rw [EnumMeta_new_eq_buildFrom]
  have h := (buildFrom_char (memberDecls attrs) ⟨[], [], []⟩).2.2
  simpa [keysOf] using h

theorem specMembers_value_mem (decls : List (String × PyObj)) :
    ∀ (seen : List PyObj) (v : PyObj),
      v ∈ (specMembers seen decls).map EnumValue.value
        ↔ v ∈ decls.map Prod.snd ∧ v ∉ seen := by
  induction decls with
  | nil => intro seen v; simp [specMembers]
  | cons hd rest ih =>
    intro seen v
    obtain ⟨k, w⟩ := hd
    by_cases hw : w ∈ seen <;> by_cases hvw : v = w
    · subst hvw
      simp only [specMembers, if_pos hw, List.map_cons, List.mem_cons, ih]
      tauto
    · simp only [specMembers, if_pos hw, List.map_cons, List.mem_cons, ih]
      tauto
    · subst hvw
      simp only [specMembers, if_neg hw, List.map_cons, List.mem_cons, ih]
      tauto
    · simp only [specMembers, if_neg hw, List.map_cons, List.mem_cons, ih]
      tauto

theorem specMembers_value_nodup (decls : List (String × PyObj)) :
    ∀ seen : List PyObj, ((specMembers seen decls).map EnumValue.value).Nodup := by
  induction decls with
  | nil => intro seen; simp [specMembers]
  | cons hd rest ih =>
    intro seen
    obtain ⟨k, w⟩ := hd
    by_cases hw : w ∈ seen
    · simpa [specMembers, hw] using ih seen
    · simp only [specMembers, if_neg hw, List.map_cons]
      refine List.nodup_cons.mpr ⟨?_, ih (w :: seen)⟩
      intro hmem
      have h := (specMembers_value_mem rest (w :: seen) w).mp hmem
      simp at h

theorem firstKey_cons_of_ne (k : String) (w v : PyObj) (rest : List (String × PyObj))
    (h : ¬ w = v) : firstKey ((k, w) :: rest) v = firstKey rest v := by
  unfold firstKey
  rw [List.find?_cons_of_neg _ (by simpa using h)]

theorem firstKey_cons_self (k : String) (w : PyObj) (rest : List (String × PyObj)) :
    firstKey ((k, w) :: rest) w = some k := by
  unfold firstKey
  rw [List.find?_cons_of_pos _ (by simp)]
  rfl

theorem specMembers_firstKey (decls : List (String × PyObj)) :
    ∀ (seen : List PyObj) (s : EnumValue), s ∈ specMembers seen decls →
      (s.name, s.value) ∈ decls ∧ s.value ∉ seen ∧ firstKey decls s.value = some s.name := by
  induction decls with
  | nil => intro seen s h; simp [specMembers] at h
  | cons hd rest ih =>
    intro seen s h
    obtain ⟨k, w⟩ := hd
    by_cases hw : w ∈ seen
    · rw [specMembers, if_pos hw] at h
      obtain ⟨h1, h2, h3⟩ := ih seen s h
      have hne : ¬ w = s.value := fun c => h2 (c ▸ hw)
      refine ⟨List.mem_cons_of_mem _ h1, h2, ?_⟩
      rw [firstKey_cons_of_ne k w s.value rest hne]
      exact h3
    · rw [specMembers, if_neg hw] at h
      rcases List.mem_cons.mp h with h0 | h0
      · subst h0
        exact ⟨List.mem_cons_self _ _, hw, firstKey_cons_self k w rest⟩
      · obtain ⟨h1, h2, h3⟩ := ih (w :: seen) s h0
        simp only [List.mem_cons, not_or] at h2
        have hne : ¬ w = s.value := fun c => h2.1 c.symm
        refine ⟨List.mem_cons_of_mem _ h1, h2.2, ?_⟩
        rw [firstKey_cons_of_ne k w s.value rest hne]
        exact h3

/-- The canonical symbol lookup-by-name will return for a name declared with
raw value `v`: the symbol already interned in `vmap`, or else a fresh one
named after the first declaration of `v`. -/
def canonOf (vmap : List (PyObj × EnumValue)) (decls : List (String × PyObj)) (v : PyObj) :
    Option EnumValue :=
  match alookup vmap v with
  | some s => some s
  | none => (firstKey decls v).map (fun n => ⟨n, v⟩)

theorem specEntries_alookup (decls : List (String × PyObj)) :
    ∀ (vmap : List (PyObj × EnumValue)) (k : String) (v : PyObj),
      (keysOf decls).Nodup → (k, v) ∈ decls →
      alookup (specEntries vmap decls) k = canonOf vmap decls v := by
  induction decls with
  | nil => intro vmap k v _ h; simp at h
  | cons hd rest ih =>
    intro vmap k v hnd hmem
    obtain ⟨k0, v0⟩ := hd
    have hnd2 : k0 ∉ keysOf rest ∧ (keysOf rest).Nodup := by
      simpa [keysOf, List.nodup_cons] using hnd
    rcases List.mem_cons.mp hmem with h0 | h0
    · have hk : k = k0 := congrArg Prod.fst h0
      have hv : v = v0 := congrArg Prod.snd h0
      subst hk
      subst hv
      cases h : alookup vmap v with
      | some s =>
        simp only [specEntries, h]
        simp only [alookup, if_pos rfl]
        simp [canonOf, h]
      | none =>
        simp only [specEntries, h]
        simp only [alookup, if_pos rfl]
        simp [canonOf, h, firstKey_cons_self]
    · have hk0 : ¬ k0 = k := by
        intro c
        subst c
        exact hnd2.1 (List.mem_map.mpr ⟨(k0, v), h0, rfl⟩)
      cases h : alookup vmap v0 with
      | some s =>
        simp only [specEntries, h]
        simp only [alookup, if_neg hk0]
        rw [ih vmap k v hnd2.2 h0]
        cases h2 : alookup vmap v with
        | some t => simp [canonOf, h2]
        | none =>
          have hne : ¬ v0 = v := by
            intro c
            subst c
            rw [h] at h2
            exact Option.noConfusion h2
          simp [canonOf, h2, firstKey_cons_of_ne k0 v0 v rest hne]
      | none =>
        simp only [specEntries, h]
        simp only [alookup, if_neg hk0]
        rw [ih (vmap ++ [(v0, (⟨k0, v0⟩ : EnumValue))]) k v hnd2.2 h0]
        by_cases hv0 : v = v0
        · subst hv0
          have hl : alookup (vmap ++ [(v, (⟨k0, v⟩ : EnumValue))]) v = some ⟨k0, v⟩ := by
            rw [alookup_append]
            rw [h]
            simp [alookup]
          simp [canonOf, hl, h, firstKey_cons_self]
        · have hl : alookup (vmap ++ [(v0, (⟨k0, v0⟩ : EnumValue))]) v = alookup vmap v := by
            rw [alookup_append]
            cases h2 : alookup vmap v with
            | some t => rfl
            | none =>
              have hne : ¬ v0 = v := fun c => hv0 c.symm
              simp [alookup, hne]
          cases h2 : alookup vmap v with
          | some t =>
            rw [h2] at hl
            simp [canonOf, hl, h2]
          | none =>
            rw [h2] at hl
            have hne : ¬ v0 = v := fun c => hv0 c.symm
            simp [canonOf, hl, h2, firstKey_cons_of_ne k0 v0 v rest hne]

theorem mapM_alookup_names (mm : List (String × EnumValue)) :
    ∀ S : List EnumValue, (∀ s ∈ S, alookup mm s.name = some s) →
      (S.map EnumValue.name).mapM (alookup mm) = some S := by
  intro S
  induction S with
  | nil => intro _; rfl
  | cons s S ih =>
    intro h
    rw [List.map_cons, List.mapM_cons]
    rw [h s (List.mem_cons_self s S)]
    rw [ih (fun x hx => h x (List.mem_cons_of_mem _ hx))]
    rfl

theorem specMembers_length (decls : List (String × PyObj)) :
    (specMembers [] decls).length = ((decls.map Prod.snd).toFinset).card := by
  have hnd := specMembers_value_nodup decls []
  have hlen : (specMembers [] decls).length
      = ((specMembers [] decls).map EnumValue.value).length := by
    rw [List.length_map]
  rw [hlen, ← List.toFinset_card_of_nodup hnd]
  congr 1
  apply Finset.ext
  intro a
  simp only [List.mem_toFinset]
  rw [specMembers_value_mem decls [] a]
  simp

theorem alookup_pairMap (S : List EnumValue) (v : PyObj) (s : EnumValue) :
    alookup (S.map (fun t => (t.value, t))) v = some s → s.value = v := by
  induction S with
  | nil => intro h; simp [alookup] at h
  | cons t S ih =>
    intro h
    simp only [List.map_cons, alookup] at h
    by_cases hv : t.value = v
    · rw [if_pos hv] at h
      cases h
      exact hv
    · rw [if_neg hv] at h
      exact ih h

theorem EnumMeta_new_value_keys (attrs : List (String × Attr)) (v : PyObj) :
    (alookup (EnumMeta_new attrs).value_map v).isSome
      ↔ v ∈ (memberDecls attrs).map Prod.snd := by
  rw [alookup_isSome, EnumMeta_new_value_map]
  have hk : keysOf ((specMembers [] (memberDecls attrs)).map (fun s => (s.value, s)))
      = (specMembers [] (memberDecls attrs)).map EnumValue.value := by
    simp [keysOf]
  rw [hk, specMembers_value_mem (memberDecls attrs) [] v]
  simp

theorem EnumMeta_new_getitem (attrs : List (String × Attr))
    (hnd : (keysOf (memberDecls attrs)).Nodup) (k n : String) (v : PyObj)
    (hmem : (k, v) ∈ memberDecls attrs)
    (hfk : firstKey (memberDecls attrs) v = some n) :
    EnumMeta_getitem (EnumMeta_new attrs) k = .ok ⟨n, v⟩ := by
  unfold EnumMeta_getitem
  rw [EnumMeta_new_member_map, specEntries_alookup _ [] k v hnd hmem]
  simp [canonOf, alookup, hfk]

theorem EnumMeta_new_iter (attrs : List (String × Attr))
    (hnd : (keysOf (memberDecls attrs)).Nodup) :
    EnumMeta_iter (EnumMeta_new attrs) = some (specMembers [] (memberDecls attrs)) := by
  unfold EnumMeta_iter
  rw [EnumMeta_new_member_names, EnumMeta_new_member_map]
  apply mapM_alookup_names
  intro s hs
  obtain ⟨h1, h2, h3⟩ := specMembers_firstKey (memberDecls attrs) [] s hs
  rw [specEntries_alookup _ [] s.name s.value hnd h1]
  cases s
  simp [canonOf, alookup, h3]

theorem EnumMeta_new_len (attrs : List (String × Attr)) :
    EnumMeta_len (EnumMeta_new attrs) = ((memberDecls attrs).map Prod.snd).toFinset.card := by
  unfold EnumMeta_len
  rw [EnumMeta_new_member_names, List.length_map]
  exact specMembers_length (memberDecls attrs)
theorem mapM_append_option {α β : Type} (f : α → Option β) :
    ∀ l1 l2 : List α, (l1 ++ l2).mapM f
      = (l1.mapM f).bind (fun a => (l2.mapM f).map (fun b => a ++ b)) := by
  intro l1
  induction l1 with
  | nil =>
    intro l2
    simp only [List.nil_append, List.mapM_nil]
    cases h : l2.mapM f <;> simp only [pure, Option.bind_some, Option.map_none, Option.map_some, h] <;> rfl
  | cons a l1 ih =>
    intro l2
    rw [List.cons_append, List.mapM_cons, List.mapM_cons, ih l2]
    cases hfa : f a <;> cases hl : l1.mapM f <;> cases h2 : l2.mapM f <;>
      simp [hfa, hl, h2]

theorem mapM_reverse_option {α β : Type} (f : α → Option β) :
    ∀ l : List α, l.reverse.mapM f = (l.mapM f).map List.reverse := by
  intro l
  induction l with
  | nil => rfl
  | cons a l ih =>
    rw [List.reverse_cons, mapM_append_option, ih, List.mapM_cons]
    cases hfa : f a <;> cases hl : l.mapM f <;>
      simp only [hfa, hl, List.mapM_cons, List.mapM_nil, Option.map_none, Option.map_some,
        Option.none_bind, Option.some_bind, Option.bind_none, Option.bind_some, pure,
        List.reverse_cons, List.reverse_nil, bind] <;> simp

/-- Projection of the integer payload of a raw value. -/
def rawInt : PyObj → Option Int
  | .int n => some n
  | _ => none

/-- Whether `t` is a suffix of `s`, on the character lists. -/
def strEndsWith (s t : String) : Bool := t.data.isSuffixOf s.data

/-- Category by member-name suffix, as the claim describes the table:
`_create`, `_update` and `_delete` members carry the matching category and
every other member has none. -/
def specCategory (name : String) : Option EnumValue :=
  if strEndsWith name "_create" then some AuditLogActionCategory.create
  else if strEndsWith name "_update" then some AuditLogActionCategory.update
  else if strEndsWith name "_delete" then some AuditLogActionCategory.delete
  else none

/-- Target-type bucketing by tens, as the claim describes it. -/
def specTarget (v : Int) : Option String :=
  if v < 10 then some "guild"
  else if v < 20 then some "channel"
  else if v < 30 then some "user"
  else if v < 40 then some "role"
  else if v < 50 then some "invite"
  else if v < 60 then some "webhook"
  else if v < 70 then some "emoji"
  else if v < 80 then some "message"
  else if v < 90 then some "integration"
  else none

/-- Concrete scenario from the spec: a symbol set declared `text=0, private=1,
voice=2`. -/
def scenarioSet : EnumDef :=
  EnumMeta_new
    [("text", .val (.int 0)), ("private", .val (.int 1)), ("voice", .val (.int 2))]

theorem dictGet_ok_iff (m : List (PyObj × EnumValue)) (v : PyObj) (s : EnumValue) :
    dictGet m v = .ok s ↔ (v.hashable = true ∧ alookup m v = some s) := by
  unfold dictGet
  by_cases hv : v.hashable = true
  · rw [if_pos hv]
    cases ha : alookup m v <;> simp [ha, hv]
  · rw [if_neg hv]
    simp [hv]

/-! ### The claims -/

/-- C1: for every symbol set and every input value, try-resolve
(`Enum.try_value` and `try_enum`) never raises: when strict-resolve
succeeds it returns the identical canonical symbol strict-resolve returns,
and for any other value — unknown or unhashable — it returns the input
itself unchanged, never `None` and never an error (the result type has no
error or null outcome); concretely, 999 against `ChannelType`, which has
no member valued 999, passes through unchanged. -/
theorem c1_try_resolve_total :
    (∀ (st : EnumDef) (v : PyObj),
      (∃ s, EnumMeta_call st v = .ok s
          ∧ Enum_try_value st v = .sym s ∧ try_enum (some st) v = .sym s)
      ∨ (EnumMeta_call st v = .error .valueError
          ∧ Enum_try_value st v = .raw v ∧ try_enum (some st) v = .raw v))
    ∧ Enum_try_value ChannelType (.int 999) = .raw (.int 999)
    ∧ try_enum (some ChannelType) (.int 999) = .raw (.int 999)
    ∧ Enum_try_value ChannelType (.unhashable 0) = .raw (.unhashable 0)
    ∧ (∀ v : PyObj, try_enum none v = .raw v) := by
  refine ⟨?_, by decide, by decide, by decide, fun v => rfl⟩
  intro st v
  cases h : dictGet st.value_map v with
  | ok s =>
    left
    exact ⟨s, by simp [EnumMeta_call, h], by simp [Enum_try_value, h],
      by simp [try_enum, h]⟩
  | error e =>
    right
    exact ⟨by simp [EnumMeta_call, h], by simp [Enum_try_value, h],
      by simp [try_enum, h]⟩

/-- C5: setting or deleting any attribute on a finished symbol-set type
raises the immutability `TypeError` unconditionally — the methods raise
before touching anything — and the three frozen structures afterwards are
exactly what they were before. -/
theorem c5_immutability (st : EnumDef) (n : String) (a : Attr) :
    EnumMeta_setattr st n a = (.error (.typeError "Enums are immutable."), st)
    ∧ EnumMeta_delattr st n = (.error (.typeError "Enums are immutable"), st)
    ∧ (EnumMeta_setattr st n a).2.value_map = st.value_map
    ∧ (EnumMeta_setattr st n a).2.member_map = st.member_map
    ∧ (EnumMeta_setattr st n a).2.member_names = st.member_names
    ∧ (EnumMeta_delattr st n).2.value_map = st.value_map
    ∧ (EnumMeta_delattr st n).2.member_map = st.member_map
    ∧ (EnumMeta_delattr st n).2.member_names = st.member_names :=
  ⟨rfl, rfl, rfl, rfl, rfl, rfl, rfl, rfl⟩

/-- C6: the type-membership test succeeds exactly when the candidate
carries a back-reference identical to the tested class: a symbol of A
against A is true, against a different B false, and any object without
the back-reference yields false rather than an error. -/
theorem c6_instancecheck (A B : Nat) (s : EnumValue) (v : PyObj) :
    EnumMeta_instancecheck A (.enumValue A s) = true
    ∧ (A ≠ B → EnumMeta_instancecheck B (.enumValue A s) = false)
    ∧ EnumMeta_instancecheck B (.plain v) = false
    ∧ (∀ c : Candidate, EnumMeta_instancecheck A c = true
        ↔ ∃ t, c = .enumValue A t) := by
  refine ⟨by simp [EnumMeta_instancecheck], ?_, rfl, ?_⟩
  · intro h
    simp [EnumMeta_instancecheck]
    exact h
  · intro c
    cases c with
    | enumValue owner t => simp [EnumMeta_instancecheck]
    | plain w => simp [EnumMeta_instancecheck]

/-- C6 witness: a ButtonStyle symbol fails the membership test of ButtonColor. -/
theorem c6_instancecheck_witness :
    EnumMeta_instancecheck ButtonColor_cls
      (.enumValue ButtonStyle_cls ⟨"grey", .int 2⟩) = false :=
  (c6_instancecheck ButtonStyle_cls ButtonColor_cls ⟨"grey", .int 2⟩ (.int 0)).2.1
    (by decide)

/-- C8: reverse iteration produces exactly the reverse of forward
iteration, for every symbol set; concretely so for `ChannelType`. -/
theorem c8_reverse_iteration :
    (∀ st : EnumDef, EnumMeta_reversed st = (EnumMeta_iter st).map List.reverse)
    ∧ EnumMeta_reversed ChannelType
        = some [⟨"stage_voice", .int 13⟩, ⟨"private_thread", .int 12⟩,
            ⟨"public_thread", .int 11⟩, ⟨"news_thread", .int 10⟩,
            ⟨"store", .int 6⟩, ⟨"news", .int 5⟩, ⟨"category", .int 4⟩,
            ⟨"group", .int 3⟩, ⟨"voice", .int 2⟩, ⟨"private", .int 1⟩,
            ⟨"text", .int 0⟩] :=
  ⟨fun st => mapM_reverse_option (alookup st.member_map) st.member_names, by decide⟩

/-- C9: `ButtonColor`, though documented as an alias of `ButtonStyle`, is
built as a fresh empty symbol set: the metaclass reruns on its class body
(which declares no members) and stores fresh empty maps shadowing the
inherited ones, so its count is 0, iteration yields nothing, strict
resolve of any value — including 2, a valid ButtonStyle raw value —
raises `ValueError`, try-resolve passes everything through, and no
ButtonStyle symbol passes its membership test. -/
theorem c9_buttoncolor_fresh_empty :
    ButtonColor.value_map = [] ∧ ButtonColor.member_map = []
    ∧ ButtonColor.member_names = []
    ∧ EnumMeta_len ButtonColor = 0
    ∧ EnumMeta_iter ButtonColor = some []
    ∧ EnumMeta_call ButtonColor (.int 2) = .error .valueError
    ∧ (∀ v : PyObj, EnumMeta_call ButtonColor v = .error .valueError)
    ∧ (∀ v : PyObj, Enum_try_value ButtonColor v = .raw v)
    ∧ (∀ s : EnumValue,
        EnumMeta_instancecheck ButtonColor_cls (.enumValue ButtonStyle_cls s) = false)
    ∧ EnumMeta_call ButtonStyle (.int 2) = .ok ⟨"grey", .int 2⟩ := by
  refine ⟨by decide, by decide, by decide, by decide, by decide, by decide,
    ?_, ?_, fun s => rfl, by decide⟩
  · intro v
    cases v <;> rfl
  · intro v
    cases v <;> rfl

/-- C2: strict-resolve returns a symbol whose raw value equals the input
exactly when the input is a declared raw value of the set; every other
input — including unhashable ones — makes it raise the invalid-value
`ValueError` (returned to the caller in the model, i.e. propagated). -/
theorem c2_strict_resolve (attrs : List (String × Attr))
    (hh : ∀ kv ∈ memberDecls attrs, (kv.2).hashable = true) (v : PyObj) :
    (∀ s, EnumMeta_call (EnumMeta_new attrs) v = .ok s
        → s.value = v ∧ v ∈ (memberDecls attrs).map Prod.snd)
    ∧ (v ∈ (memberDecls attrs).map Prod.snd
        → ∃ s, EnumMeta_call (EnumMeta_new attrs) v = .ok s)
    ∧ (v ∉ (memberDecls attrs).map Prod.snd
        → EnumMeta_call (EnumMeta_new attrs) v = .error .valueError) := by
  refine ⟨?_, ?_, ?_⟩
  · intro s hcall
    have hok : dictGet (EnumMeta_new attrs).value_map v = .ok s := by
      cases h : dictGet (EnumMeta_new attrs).value_map v with
      | ok t =>
        simp only [EnumMeta_call, h] at hcall
        cases hcall
        rfl
      | error e => simp [EnumMeta_call, h] at hcall
    obtain ⟨hhash, ha⟩ := (dictGet_ok_iff _ v s).mp hok
    constructor
    · have hmap := ha
      rw [EnumMeta_new_value_map] at hmap
      exact alookup_pairMap _ v s hmap
    · rw [← EnumMeta_new_value_keys]
      rw [ha]
      rfl
  · intro hmem
    have hsome : (alookup (EnumMeta_new attrs).value_map v).isSome :=
      (EnumMeta_new_value_keys attrs v).mpr hmem
    obtain ⟨s, hs⟩ := Option.isSome_iff_exists.mp hsome
    have hhash : v.hashable = true := by
      obtain ⟨kv, hkv, hkv2⟩ := List.mem_map.mp hmem
      rw [← hkv2]
      exact hh kv hkv
    have hok := (dictGet_ok_iff (EnumMeta_new attrs).value_map v s).mpr ⟨hhash, hs⟩
    exact ⟨s, by simp [EnumMeta_call, hok]⟩
  · intro hnot
    have hnone : alookup (EnumMeta_new attrs).value_map v = none := by
      cases hl : alookup (EnumMeta_new attrs).value_map v with
      | none => rfl
      | some s =>
        exfalso
        apply hnot
        rw [← EnumMeta_new_value_keys attrs v, hl]
        rfl
    by_cases hv : v.hashable = true
    · have hge : dictGet (EnumMeta_new attrs).value_map v = .error .keyError := by
        unfold dictGet
        rw [if_pos hv, hnone]
      simp [EnumMeta_call, hge]
    · have hge : dictGet (EnumMeta_new attrs).value_map v
          = .error (.typeError "unhashable type") := by
        unfold dictGet
        rw [if_neg hv]
      simp [EnumMeta_call, hge]

/-- C2 witness: 999 is not declared in ChannelType and strict-resolve of it
raises `ValueError`; 1 is declared and resolves to a symbol with value 1. -/
theorem c2_strict_resolve_witness :
    EnumMeta_call ChannelType (.int 999) = .error .valueError
    ∧ ∃ s, EnumMeta_call ChannelType (.int 1) = .ok s :=
  ⟨(c2_strict_resolve channelTypeAttrs (by decide) (.int 999)).2.2 (by decide),
   (c2_strict_resolve channelTypeAttrs (by decide) (.int 1)).2.1 (by decide)⟩

/-- C3: lookup-by-name of every declared name returns the symbol created at
the first declaration of its raw value — so its raw value is the declared
one, names sharing a raw value all yield that one interned symbol (the
model makes the sharing explicit: the alias branch registers the existing
record and creates nothing), and its name field is the first-declared
name.  Concretely, in ButtonStyle the lookups of grey, gray and Secondary
all yield the single symbol named grey with raw value 2, and the set holds
only 5 symbols for its 13 declared names. -/
theorem c3_lookup_by_name :
    (∀ attrs : List (String × Attr), (keysOf (memberDecls attrs)).Nodup →
      ∀ (k n : String) (v : PyObj), (k, v) ∈ memberDecls attrs →
        firstKey (memberDecls attrs) v = some n →
        EnumMeta_getitem (EnumMeta_new attrs) k = .ok ⟨n, v⟩)
    ∧ EnumMeta_getitem ButtonStyle "grey" = .ok ⟨"grey", .int 2⟩
    ∧ EnumMeta_getitem ButtonStyle "gray" = .ok ⟨"grey", .int 2⟩
    ∧ EnumMeta_getitem ButtonStyle "Secondary" = .ok ⟨"grey", .int 2⟩
    ∧ ButtonStyle.value_map.length = 5
    ∧ ButtonStyle.member_map.length = 13 := by
  refine ⟨?_, by decide, by decide, by decide, by decide, by decide⟩
  intro attrs hnd k n v hmem hfk
  exact EnumMeta_new_getitem attrs hnd k n v hmem hfk

/-- C3 witness: the general lookup characterization applied to the alias
`Danger` of ButtonStyle. -/
theorem c3_lookup_by_name_witness :
    EnumMeta_getitem ButtonStyle "Danger" = .ok ⟨"red", .int 4⟩ :=
  c3_lookup_by_name.1 buttonStyleAttrs (by decide) "Danger" "red" (.int 4)
    (by decide) (by decide)

/-- C4: forward iteration yields exactly the distinct symbols in
first-declaration order (`specMembers`, the specification-side
description), and the count equals the number of distinct raw values, not
the number of declared names.  Concretely, the set declared `text=0,
private=1, voice=2` has count 3, strict-resolve(1) is the private symbol,
and iteration yields text, private, voice in that order. -/
theorem c4_iteration_and_count :
    (∀ attrs : List (String × Attr), (keysOf (memberDecls attrs)).Nodup →
      EnumMeta_iter (EnumMeta_new attrs) = some (specMembers [] (memberDecls attrs))
      ∧ EnumMeta_len (EnumMeta_new attrs)
          = ((memberDecls attrs).map Prod.snd).toFinset.card)
    ∧ EnumMeta_len scenarioSet = 3
    ∧ EnumMeta_call scenarioSet (.int 1) = .ok ⟨"private", .int 1⟩
    ∧ EnumMeta_iter scenarioSet
        = some [⟨"text", .int 0⟩, ⟨"private", .int 1⟩, ⟨"voice", .int 2⟩]
    ∧ EnumMeta_len ButtonStyle = 5 := by
  refine ⟨?_, by decide, by decide, by decide, by decide⟩
  intro attrs hnd
  exact ⟨EnumMeta_new_iter attrs hnd, EnumMeta_new_len attrs⟩

/-- C4 witness: the general characterization applied to `ChannelType`. -/
theorem c4_iteration_and_count_witness :
    EnumMeta_iter ChannelType = some (specMembers [] (memberDecls channelTypeAttrs)) :=
  (c4_iteration_and_count.1 channelTypeAttrs (by decide)).1

/-- C7: both derived `AuditLogAction` properties are pure functions of the
member (modelled as functions): category, computed by the static lookup
table, is exactly what the member-name suffix dictates — create for every
`_create` member, update for `_update`, delete for `_delete` including
message_bulk_delete, and none for kick, member_prune, ban, unban,
member_move, member_disconnect, bot_add, message_pin and message_unpin —
and target_type buckets the raw integer value by tens (below 10 guild,
10-19 channel, 20-29 user, 30-39 role, 40-49 invite, 50-59 webhook,
60-69 emoji, 70-79 message, 80-89 integration). -/
theorem c7_audit_derived (s : EnumValue)
    (hs : s ∈ (EnumMeta_iter AuditLogAction).getD []) :
    AuditLogAction_category s = some (specCategory s.name)
    ∧ (rawInt s.value).isSome = true
    ∧ (rawInt s.value).map AuditLogAction_target_type
        = (rawInt s.value).map specTarget := by
  revert s
  decide

/-- C7 witness: the derived properties evaluated at channel_create. -/
theorem c7_audit_derived_witness :
    AuditLogAction_category ⟨"channel_create", .int 10⟩
        = some (specCategory "channel_create")
    ∧ (rawInt (PyObj.int 10)).isSome = true
    ∧ (rawInt (PyObj.int 10)).map AuditLogAction_target_type
        = (rawInt (PyObj.int 10)).map specTarget :=
  c7_audit_derived ⟨"channel_create", .int 10⟩ (by decide)

/-- C10 counterexample: the claim asserts a ComponentType member compared
with itself evaluates to false; at `ComponentType.Button` — which really
is the member record the class holds — the overridden equality applied to
the member itself yields true, refuting the claimed non-reflexivity. -/
theorem c10_counterexample :
    alookup ComponentType.member_map "Button" = some ⟨"Button", .int 2⟩
    ∧ ComponentType_eq "Button" 2 (.mem "Button" 2) = true := by
  decide

/-- C10 amended: the overridden equality makes every ComponentType member
equal to its raw integer value and to its name string; but the comparison
is reflexive rather than irreflexive: `s == s` evaluates to true, because
`int(self) == other` with the member itself on the right triggers the
reflected `__eq__` of that member against the plain integer, which
succeeds — in general a member record equals any member record declared
with the same integer value and name. -/
theorem c10_amended_dual_equality :
    (∀ s, s ∈ (EnumMeta_iter ComponentType).getD [] →
      (rawInt s.value).isSome = true
      ∧ (rawInt s.value).map
          (fun n => ComponentType_eq s.name n (.prim (.pint n))) = some true
      ∧ (rawInt s.value).map
          (fun n => ComponentType_eq s.name n (.prim (.pstr s.name))) = some true
      ∧ (rawInt s.value).map
          (fun n => ComponentType_eq s.name n (.mem s.name n)) = some true)
    ∧ (∀ (nm : String) (n : Int), ComponentType_eq nm n (.mem nm n) = true) := by
  constructor
  · decide
  · intro nm n
    simp [ComponentType_eq, intEqPy, strEqPy, ComponentType_eq_prim]

/-- C10 witness: the amended equality facts at ComponentType.Button. -/
theorem c10_amended_dual_equality_witness :
    (rawInt (PyObj.int 2)).isSome = true
    ∧ (rawInt (PyObj.int 2)).map
        (fun n => ComponentType_eq "Button" n (.prim (.pint n))) = some true
    ∧ (rawInt (PyObj.int 2)).map
        (fun n => ComponentType_eq "Button" n (.prim (.pstr "Button"))) = some true
    ∧ (rawInt (PyObj.int 2)).map
        (fun n => ComponentType_eq "Button" n (.mem "Button" n)) = some true :=
  c10_amended_dual_equality.1 ⟨"Button", .int 2⟩ (by decide)
